import Mathlib

/-!
Verification of the domain-tray reconciliation engine of
qubes-desktop-linux-manager (`src/qui/tray/domains.py`).

The Python module is shallowly embedded: the event-kind table, the menu
(the ordered collection of per-domain entries), and the handler methods of
`DomainTray` become pure Lean functions over explicit state.  External
queries against the live domain collection (`self.qapp.domains`,
`get_power_state`, `is_running`, template and volume lookups) are modelled
by a `Qapp` environment that records, for each live domain, the answers
those queries would give; a query that raises is recorded as an `Except`
error or a `none`.
-/

namespace QuiDomains

/-- `STATE_DICTIONARY` from `src/qui/tray/domains.py`: the fixed table
mapping the eight lifecycle event kinds to power states; any other kind is
absent (`dict.get` gives `None`). -/
def STATE_DICTIONARY (event : String) : Option String :=
  if event = "domain-pre-start" then some "Transient"
  else if event = "domain-start" then some "Running"
  else if event = "domain-start-failed" then some "Halted"
  else if event = "domain-paused" then some "Paused"
  else if event = "domain-unpaused" then some "Running"
  else if event = "domain-shutdown" then some "Halted"
  else if event = "domain-pre-shutdown" then some "Transient"
  else if event = "domain-shutdown-failed" then some "Running"
  else none

/-- Failure modes of queries against the admin API that the scan in
`handle_domain_shutdown` distinguishes: `QubesPropertyAccessError`
(caught by the inner handler) and `QubesVMNotFoundError` (caught only by
the outer handler). -/
inductive QErr
  | propAccess
  | notFound
deriving DecidableEq, Repr

deriving instance DecidableEq for Except

/-- A live domain as seen through `self.qapp.domains` plus the recorded
answers of the queries the handlers make against it.
`powerQuery = none` models `get_power_state()` raising;
`goneAtRecheck` is the value of `vm not in self.qapp.domains` evaluated at
the re-check inside `add_domain_item` after such a failure (the window in
which the domain may have vanished).  `runningQuery`, `templatesQuery`,
`volumes`/`volsNotFound` record the answers used by
`handle_domain_shutdown`: `is_running()`, the `template`/«template of
template» chain (by name), and the `is_outdated()` flags of the volumes
(with `volsNotFound` meaning the volume scan raises
`QubesVMNotFoundError`). -/
structure LiveVM where
  name : String
  klass : String
  powerQuery : Option String
  goneAtRecheck : Bool
  template_for_dispvms : Bool
  runningQuery : Except QErr Bool
  templatesQuery : Except Unit (Option String × Option String)
  volumes : List Bool
  volsNotFound : Bool
deriving DecidableEq, Repr

/-- The live domain collection `self.qapp.domains`. -/
structure Qapp where
  domains : List LiveVM
deriving DecidableEq, Repr

/-- `self.qapp.domains[name]` — lookup of a live domain by name. -/
def Qapp.find (q : Qapp) (name : String) : Option LiveVM :=
  q.domains.find? (fun vm => vm.name == name)

/-- The registry-level content of a `DomainMenuItem`: the domain's name
and class, the power state last applied through `update_state`, the
show/hide status, and the outdated indicator.  An AdminVM item carries no
rendered state (its constructor ignores the `state` argument), which we
record as the empty string. -/
structure Item where
  name : String
  klass : String
  state : String
  visible : Bool
  outdated : Bool
deriving DecidableEq, Repr

/-- An entry of `self.tray_menu`: the header item (`vm is None`), a
per-domain item, or a widget without a `vm` attribute (the separator and
the Qube Manager entry). -/
inductive MenuEntry
  | header
  | item (it : Item)
  | other
deriving DecidableEq, Repr

/-- Lookup in `self.menu_items` by name: the first per-domain item of the
menu carrying this name, if any. -/
def findItem (menu : List MenuEntry) (name : String) : Option Item :=
  match menu with
  | [] => none
  | .item it :: rest => if it.name = name then some it else findItem rest name
  | _ :: rest => findItem rest name

/-- Apply `f` to the (first) per-domain item named `name`; every other
entry is untouched.  Models an in-place mutation of the widget that
`self.menu_items[vm]` refers to. -/
def modifyItem (f : Item → Item) (name : String) : List MenuEntry → List MenuEntry
  | [] => []
  | .item it :: rest =>
      if it.name = name then .item (f it) :: rest
      else .item it :: modifyItem f name rest
  | e :: rest => e :: modifyItem f name rest

/-- `DomainMenuItem.__init__` with an explicit state: for an AdminVM the
state argument is ignored and no `update_state` runs; otherwise
`update_state(state)` renders the state and hides the item iff the state
is `Halted`.  A fresh item has its outdated indicator clear. -/
def mkItem (vm : LiveVM) (st : String) : Item :=
  if vm.klass = "AdminVM" then
    { name := vm.name, klass := vm.klass, state := "", visible := true,
      outdated := false }
  else
    { name := vm.name, klass := vm.klass, state := st,
      visible := st ≠ "Halted", outdated := false }

/-- `DomainMenuItem.update_state`: a no-op for an AdminVM (and the
header); otherwise records the new state and hides the item iff the state
is `Halted`. -/
def Item.updateState (it : Item) (st : String) : Item :=
  if it.klass = "AdminVM" then it
  else { it with state := st, visible := st ≠ "Halted" }

/-- The insertion-position scan of `add_domain_item` (the event branch):
walk the menu counting positions, stopping at the first entry without a
`vm` attribute, skipping the header and AdminVM entries, and stopping at
the first remaining entry whose name exceeds the new name. -/
def insertPosition (newName : String) : List MenuEntry → Nat
  | [] => 0
  | .other :: _ => 0
  | .header :: rest => insertPosition newName rest + 1
  | .item it :: rest =>
      if it.klass = "AdminVM" then insertPosition newName rest + 1
      else if newName < it.name then 0
      else insertPosition newName rest + 1

/-- `Gtk.Menu.insert`: insert at the given position, appending when the
position runs past the end. -/
def insertAt {α : Type} (x : α) : Nat → List α → List α
  | 0, l => x :: l
  | _ + 1, [] => [x]
  | n + 1, e :: l => e :: insertAt x n l

/-- The state computation at the head of `add_domain_item`:
`STATE_DICTIONARY.get(event)` (with a `None` event giving `None`) or,
failing that, `get_power_state()` with the domain-vanished re-check
(`none`, meaning the silent `return`) and the permission fallback
`"Halted"`. -/
def resolveAddState (event : Option String) (vm : LiveVM) : Option String :=
  let fromTable : Option String :=
    match event with
    | some e => STATE_DICTIONARY e
    | none => none
  match fromTable with
  | some st => some st
  | none =>
    match vm.powerQuery with
    | some st => some st
    | none => if vm.goneAtRecheck then none else some "Halted"

/-- `DomainTray.add_domain_item`.  The first lookup
`self.qapp.domains[str(vm)]` raising `KeyError` returns silently; a name
already in `self.menu_items` returns silently; the state resolution
failing (vanished domain) returns silently.  A falsy event (`None` or
`""`) appends at the end of the menu; a real event inserts at the
scanned position. -/
def addDomainItem (q : Qapp) (menu : List MenuEntry) (event : Option String)
    (vmName : String) : List MenuEntry :=
  match q.find vmName with
  | none => menu
  | some vm =>
    if (findItem menu vm.name).isSome then menu
    else
      match resolveAddState event vm with
      | none => menu
      | some st =>
        let newEntry := MenuEntry.item (mkItem vm st)
        match event with
        | none => menu ++ [newEntry]
        | some e =>
          if e = "" then menu ++ [newEntry]
          else insertAt newEntry (insertPosition vm.name menu) menu

/-- Erase the (first) per-domain item named `vmName`; models
`self.tray_menu.remove(vm_widget)` together with
`del self.menu_items[vm]`. -/
def eraseItem (vmName : String) : List MenuEntry → List MenuEntry
  | [] => []
  | .item it :: rest =>
      if it.name = vmName then rest else .item it :: eraseItem vmName rest
  | e :: rest => e :: eraseItem vmName rest

/-- `DomainTray.remove_domain_item`: a name absent from `self.menu_items`
is a no-op; otherwise the single widget for it is removed from the menu
and the mapping. -/
def removeDomainItem (menu : List MenuEntry) (vmName : String) :
    List MenuEntry :=
  if (findItem menu vmName).isSome then eraseItem vmName menu else menu

/-- One step of the scan in `handle_domain_shutdown` for one menu item:
`none` means a `QubesVMNotFoundError` escaped to the outer handler and the
scan stops; `some it2` is the (possibly flagged) item, the scan
continuing.  The `is_running()` check skips the item on
`QubesPropertyAccessError` only; the template-chain test short-circuits
the volume scan. -/
def scanStep (q : Qapp) (shutName : String) (it : Item) : Option Item :=
  match q.find it.name with
  | none => none
  | some vm =>
    match vm.runningQuery with
    | .error .notFound => none
    | .error .propAccess => some it
    | .ok false => some it
    | .ok true =>
      match vm.templatesQuery with
      | .error _ => none
      | .ok (t1, t2) =>
        if t1 = some shutName ∨ t2 = some shutName then
          if vm.volsNotFound then none
          else if vm.volumes.any id then some { it with outdated := true }
          else some it
        else some it

/-- The loop of `handle_domain_shutdown` over `self.menu_items.values()`:
left to right; when a step raises `QubesVMNotFoundError` the outer
`except` ends the loop, leaving the current and all remaining entries
untouched. -/
def scanMenu (q : Qapp) (shutName : String) : List MenuEntry → List MenuEntry
  | [] => []
  | .item it :: rest =>
    match scanStep q shutName it with
    | none => .item it :: rest
    | some it2 => .item it2 :: scanMenu q shutName rest
  | e :: rest => e :: scanMenu q shutName rest

/-- `DomainTray.handle_domain_shutdown`: when the shut-down domain is a
`TemplateVM` or a template for disposables, run the outdated scan over
the menu items; otherwise do nothing.  A domain no longer in
`self.qapp.domains` resolves to nothing and the guard falls through. -/
def handleDomainShutdown (q : Qapp) (menu : List MenuEntry)
    (vmName : String) : List MenuEntry :=
  match q.find vmName with
  | none => menu
  | some vm =>
    if vm.klass = "TemplateVM" ∨ vm.template_for_dispvms then
      scanMenu q vm.name menu
    else menu

/-- The state resolution of `update_domain_item`: the table entry for the
event kind, or the live `get_power_state()` with the blanket
`except Exception` fallback to `"Transient"`. -/
def resolveState (q : Qapp) (vmName : String) (event : String) : String :=
  match STATE_DICTIONARY event with
  | some st => st
  | none =>
    match q.find vmName with
    | some vm => vm.powerQuery.getD "Transient"
    | none => "Transient"

/-- The event-keyed side effects at the tail of `update_domain_item`, in
source order: on `domain-shutdown`, the outdated-template propagation and
the clearing of the item's own outdated flag; on the start kinds, the
clearing of the flag and `show_all`; on `domain-shutdown`, `hide`. -/
def postStateEffects (q : Qapp) (vmName : String) (event : String)
    (m : List MenuEntry) : List MenuEntry :=
  let menu3 :=
    if event = "domain-shutdown" then
      modifyItem (fun it => { it with outdated := false }) vmName
        (handleDomainShutdown q m vmName)
    else m
  let menu4 :=
    if event = "domain-start" ∨ event = "domain-pre-start" then
      modifyItem (fun it => { it with outdated := false, visible := true })
        vmName menu3
    else menu3
  if event = "domain-shutdown" then
    modifyItem (fun it => { it with visible := false }) vmName menu4
  else menu4

/-- `DomainTray.update_domain_item`: look the item up, creating it through
`add_domain_item` on `KeyError` and returning silently when it is still
absent afterwards; resolve the state; `update_state`; then the
event-keyed side effects. -/
def updateDomainItem (q : Qapp) (menu : List MenuEntry) (vmName : String)
    (event : String) : List MenuEntry :=
  let menu1 :=
    if (findItem menu vmName).isSome then menu
    else addDomainItem q menu (some event) vmName
  if (findItem menu1 vmName).isSome then
    postStateEffects q vmName event
      (modifyItem (fun it => it.updateState (resolveState q vmName event))
        vmName menu1)
  else menu1

/-! ### The pause aggregate (`have_running_and_all_are_paused`) -/

/-- A domain as consulted by `have_running_and_all_are_paused`: its class,
its preload flag, and its live `is_running()` / `is_paused()` answers. -/
structure DomInfo where
  name : String
  klass : String
  is_preload : Bool
  running : Bool
  paused : Bool
deriving DecidableEq, Repr

/-- The loop body of `have_running_and_all_are_paused` with the
`found_paused` accumulator: AdminVM and preload domains are passed over;
a running-and-paused domain sets the accumulator; any other domain makes
the whole function return `False` at once. -/
def pauseAux (found : Bool) : List DomInfo → Bool
  | [] => found
  | vm :: rest =>
    if vm.klass = "AdminVM" ∨ vm.is_preload then pauseAux found rest
    else if vm.running ∧ vm.paused then pauseAux true rest
    else false

/-- `DomainTray.have_running_and_all_are_paused`. -/
def have_running_and_all_are_paused (doms : List DomInfo) : Bool :=
  pauseAux false doms

/-! ### The all-paused notification gate -/

/-- The notification-gate state: the `pause_notification_out` latch plus
counters of the `send_notification("vms-paused", ...)` and
`withdraw_notification("vms-paused")` calls made so far. -/
structure NotifState where
  pause_notification_out : Bool
  sentCount : Nat
  withdrawnCount : Nat
deriving DecidableEq, Repr

/-- `DomainTray.emit_paused_notification`: send and set the latch only
when the latch is clear. -/
def emit_paused_notification (s : NotifState) : NotifState :=
  if s.pause_notification_out then s
  else { s with sentCount := s.sentCount + 1, pause_notification_out := true }

/-- `DomainTray.withdraw_paused_notification`: withdraw and clear the
latch only when the latch is set. -/
def withdraw_paused_notification (s : NotifState) : NotifState :=
  if s.pause_notification_out then
    { s with withdrawnCount := s.withdrawnCount + 1,
             pause_notification_out := false }
  else s

/-- `DomainTray.check_pause_notify`: recompute the aggregate over the live
domains and route to emit or withdraw. -/
def check_pause_notify (doms : List DomInfo) (s : NotifState) : NotifState :=
  if have_running_and_all_are_paused doms then emit_paused_notification s
  else withdraw_paused_notification s

/-! ### The shift-modifier reconfiguration (`shift_pressed` setter) -/

/-- A child of a per-domain submenu, as far as the reconfiguration loop in
the `shift_pressed` setter is concerned: a run-terminal action (with its
as-root flag), a shutdown or restart action (with its force flag), or any
other child. -/
inductive SubChild
  | runTerminal (asRoot : Bool)
  | shutdownAct (force : Bool)
  | restartAct (force : Bool)
  | otherChild
deriving DecidableEq, Repr

/-- A menu item as seen by the setter loop: whether it has a `vm`, and its
current submenu (if one was set). -/
structure ShiftItem where
  hasVm : Bool
  submenu : Option (List SubChild)
deriving DecidableEq, Repr

/-- The modifier state: the `_shift_pressed` flag, the live items, and a
counter of how many reconfiguration passes have run. -/
structure ShiftState where
  shiftFlag : Bool
  items : List ShiftItem
  passCount : Nat
deriving DecidableEq, Repr

/-- The `do_emit` callback of the setter: run-terminal children switch
between root and non-root; shutdown and restart children switch between
forced and unforced; other children are untouched. -/
def reconfChild (v : Bool) : SubChild → SubChild
  | .runTerminal _ => .runTerminal v
  | .shutdownAct _ => .shutdownAct v
  | .restartAct _ => .restartAct v
  | .otherChild => .otherChild

/-- One item of the setter's reconfiguration loop: items without a `vm`
or without a submenu are passed over; otherwise every child of the
submenu goes through `do_emit`. -/
def reconfItem (v : Bool) (it : ShiftItem) : ShiftItem :=
  if it.hasVm then
    match it.submenu with
    | none => it
    | some l => { it with submenu := some (l.map (reconfChild v)) }
  else it

/-- The `shift_pressed` setter: an unchanged value short-circuits;
otherwise the flag is stored and one reconfiguration pass runs over all
live items. -/
def set_shift_pressed (v : Bool) (s : ShiftState) : ShiftState :=
  if v = s.shiftFlag then s
  else { shiftFlag := v, items := s.items.map (reconfItem v),
         passCount := s.passCount + 1 }

/-! ### The bulk unpause (`do_unpause_all`) -/

/-- A domain as consulted by `do_unpause_all`: its preload flag and
whether its `unpause()` raises a `QubesException`. -/
structure UnpVM where
  is_preload : Bool
  unpauseFails : Bool
deriving DecidableEq, Repr

/-- The live collection as consulted by `do_unpause_all`:
`self.qapp.domains[name]`, with `none` for a `KeyError`. -/
structure UnpEnv where
  lookup : String → Option UnpVM

/-- `DomainTray.do_unpause_all` over the names tracked in
`self.menu_items`, returning the names on which `unpause()` was
attempted.  The name `"dom0"` is passed over before any lookup; a
`KeyError` from the lookup is not caught and aborts the whole loop
(modelled as `Except.error`); a `QubesException` from `unpause()` is
caught and ignored, so `unpauseFails` never influences the outcome. -/
def do_unpause_all (env : UnpEnv) : List String → Except Unit (List String)
  | [] => .ok []
  | n :: rest =>
    if n = "dom0" then do_unpause_all env rest
    else
      match env.lookup n with
      | none => .error ()
      | some d =>
        if d.is_preload then do_unpause_all env rest
        else
          match do_unpause_all env rest with
          | .ok l => .ok (n :: l)
          | .error e => .error e

/-- Whether `do_unpause_all` passes a tracked name over without an
unpause attempt: the name `"dom0"`, or a preload domain. -/
def unpauseSkipped (env : UnpEnv) (n : String) : Bool :=
  n == "dom0" ||
    (match env.lookup n with
     | some d => d.is_preload
     | none => false)

/-- The names of the per-domain items of a menu, in menu order (the key
set of `self.menu_items`). -/
def itemNames : List MenuEntry → List String
  | [] => []
  | .item it :: rest => it.name :: itemNames rest
  | _ :: rest => itemNames rest

/-! ### Helper lemmas -/

theorem Qapp.find_name {q : Qapp} {n : String} {vm : LiveVM}
    (h : q.find n = some vm) : vm.name = n := by
  have hp := List.find?_some h
  exact eq_of_beq hp

theorem findItem_eq_none_iff (menu : List MenuEntry) (n : String) :
    findItem menu n = none ↔ n ∉ itemNames menu := by
  induction menu with
  | nil => simp [findItem, itemNames]
  | cons e rest ih =>
    cases e with
    | header => simpa [findItem, itemNames] using ih
    | other => simpa [findItem, itemNames] using ih
    | item it =>
      by_cases hn : it.name = n
      · simp [findItem, itemNames, hn]
      · simp [findItem, itemNames, hn, ih, Ne.symm hn]

theorem findItem_insertAt (menu : List MenuEntry) (it : Item) (p : Nat)
    (h : findItem menu it.name = none) :
    findItem (insertAt (MenuEntry.item it) p menu) it.name = some it := by
  induction menu generalizing p with
  | nil =>
    cases p <;> simp [insertAt, findItem]
  | cons e rest ih =>
    cases p with
    | zero => simp [insertAt, findItem]
    | succ k =>
      cases e with
      | header => simpa [insertAt, findItem] using ih k (by simpa [findItem] using h)
      | other => simpa [insertAt, findItem] using ih k (by simpa [findItem] using h)
      | item it2 =>
        have hne : ¬ it2.name = it.name := by
          intro hcontra
          simp [findItem, hcontra] at h
        simp only [findItem, hne, if_false] at h
        simpa [insertAt, findItem, hne] using ih k h

/-! ### C10 — a duplicate add event has no effect -/

/-- C10: if the add handler runs for an identity already present in the
item mapping, it returns immediately and leaves the menu (and thereby the
identity-to-item mapping) entirely unchanged, whatever the event kind. -/
theorem c10_duplicate_add_noop (q : Qapp) (menu : List MenuEntry)
    (event : Option String) (n : String)
    (h : (findItem menu n).isSome = true) :
    addDomainItem q menu event n = menu := by
  unfold addDomainItem
  cases hq : q.find n with
  | none => rfl
  | some vm =>
    have hn : vm.name = n := Qapp.find_name hq
    simp only [hn, h, if_true]

/-- Witness for C10 at a concrete input: the item for `work` is present,
and an add event implying a different power state changes nothing. -/
theorem c10_duplicate_add_noop_witness :
    (findItem [MenuEntry.item ⟨"work", "AppVM", "Running", true, false⟩]
        "work").isSome = true
    ∧ addDomainItem
        ⟨[⟨"work", "AppVM", some "Running", false, false, Except.ok true,
           Except.ok (none, none), [], false⟩]⟩
        [MenuEntry.item ⟨"work", "AppVM", "Running", true, false⟩]
        (some "domain-paused") "work"
      = [MenuEntry.item ⟨"work", "AppVM", "Running", true, false⟩] :=
  ⟨by decide, c10_duplicate_add_noop _ _ _ _ (by decide)⟩

/-! ### C7 — removal is idempotent -/

theorem findItem_eraseItem_of_nodup (menu : List MenuEntry) (n : String)
    (h : (itemNames menu).Nodup) :
    findItem (eraseItem n menu) n = none := by
  induction menu with
  | nil => simp [eraseItem, findItem]
  | cons e rest ih =>
    cases e with
    | header => simpa [eraseItem, findItem] using ih (by simpa [itemNames] using h)
    | other => simpa [eraseItem, findItem] using ih (by simpa [itemNames] using h)
    | item it =>
      rcases List.nodup_cons.mp (by simpa [itemNames] using h) with ⟨hnot, hrest⟩
      by_cases hn : it.name = n
      · subst hn
        simp [eraseItem, (findItem_eq_none_iff rest it.name).mpr hnot]
      · simp [eraseItem, findItem, hn, ih hrest]

/-- C7: removing an identity twice gives the same menu and mapping as
removing it once, and removing an absent identity changes nothing.  The
`Nodup` hypothesis says the mapping holds at most one item per identity,
which the add handler guarantees. -/
theorem c7_remove_idempotent (menu : List MenuEntry) (n : String)
    (h : (itemNames menu).Nodup) :
    removeDomainItem (removeDomainItem menu n) n = removeDomainItem menu n
    ∧ (findItem menu n = none → removeDomainItem menu n = menu) := by
  constructor
  · unfold removeDomainItem
    cases hf : (findItem menu n).isSome with
    | false => simp [hf]
    | true =>
      simp only [hf, if_true]
      rw [findItem_eraseItem_of_nodup menu n h]
      simp
  · intro h0
    unfold removeDomainItem
    simp [h0]

/-- Witness for C7 at a concrete input: a two-item menu; removing `work`
twice equals removing it once, and removing the absent `nosuch` is a
no-op. -/
theorem c7_remove_idempotent_witness :
    (itemNames [MenuEntry.header,
        MenuEntry.item ⟨"dom0", "AdminVM", "", true, false⟩,
        MenuEntry.item ⟨"work", "AppVM", "Running", true, false⟩]).Nodup
    ∧ removeDomainItem (removeDomainItem
        [MenuEntry.header,
         MenuEntry.item ⟨"dom0", "AdminVM", "", true, false⟩,
         MenuEntry.item ⟨"work", "AppVM", "Running", true, false⟩] "work") "work"
      = removeDomainItem
        [MenuEntry.header,
         MenuEntry.item ⟨"dom0", "AdminVM", "", true, false⟩,
         MenuEntry.item ⟨"work", "AppVM", "Running", true, false⟩] "work"
    ∧ removeDomainItem
        [MenuEntry.header,
         MenuEntry.item ⟨"dom0", "AdminVM", "", true, false⟩,
         MenuEntry.item ⟨"work", "AppVM", "Running", true, false⟩] "nosuch"
      = [MenuEntry.header,
         MenuEntry.item ⟨"dom0", "AdminVM", "", true, false⟩,
         MenuEntry.item ⟨"work", "AppVM", "Running", true, false⟩] := by
  refine ⟨by decide, (c7_remove_idempotent _ _ (by decide)).1,
    (c7_remove_idempotent _ _ (by decide)).2 (by decide)⟩

/-! ### C2 — the pause aggregate -/

/-- C2 counterexample: with one running-and-paused app domain and one
halted app domain, the claim's predicate — at least one domain running
and every running, non-admin, non-preload domain paused — holds, yet
`have_running_and_all_are_paused` returns `false`: the halted domain is
not ignored by the code, it forces the aggregate to `false`. -/
theorem c2_pause_aggregate_counterexample :
    have_running_and_all_are_paused
        [⟨"a", "AppVM", false, true, true⟩, ⟨"b", "AppVM", false, false, false⟩]
      = false
    ∧ (∃ vm ∈ [DomInfo.mk "a" "AppVM" false true true,
               DomInfo.mk "b" "AppVM" false false false], vm.running = true)
    ∧ (∀ vm ∈ [DomInfo.mk "a" "AppVM" false true true,
               DomInfo.mk "b" "AppVM" false false false],
        vm.running = true → vm.klass ≠ "AdminVM" → vm.is_preload = false →
        vm.paused = true) := by
  refine ⟨by decide, by decide, by decide⟩

theorem pauseAux_spec (doms : List DomInfo) (found : Bool) :
    pauseAux found doms = true ↔
      ((∀ vm ∈ doms, vm.klass ≠ "AdminVM" → vm.is_preload = false →
          vm.running = true ∧ vm.paused = true)
       ∧ (found = true
          ∨ ∃ vm ∈ doms, vm.klass ≠ "AdminVM" ∧ vm.is_preload = false)) := by
  induction doms generalizing found with
  | nil => simp [pauseAux]
  | cons vm rest ih =>
    by_cases h1 : vm.klass = "AdminVM" ∨ vm.is_preload = true
    · have hvac : ¬(vm.klass ≠ "AdminVM" ∧ vm.is_preload = false) := by
        rcases h1 with h1 | h1 <;> simp [h1]
      constructor
      · intro hrun
        rw [pauseAux, if_pos h1] at hrun
        rcases (ih found).mp hrun with ⟨hall, hex⟩
        refine ⟨?_, ?_⟩
        · intro w hw hk hp
          rcases List.mem_cons.mp hw with hw | hw
          · subst hw; exact absurd ⟨hk, hp⟩ hvac
          · exact hall w hw hk hp
        · rcases hex with hf | ⟨w, hw, hwp⟩
          · exact Or.inl hf
          · exact Or.inr ⟨w, List.mem_cons_of_mem _ hw, hwp⟩
      · rintro ⟨hall, hex⟩
        rw [pauseAux, if_pos h1]
        refine (ih found).mpr ⟨fun w hw => hall w (List.mem_cons_of_mem _ hw), ?_⟩
        rcases hex with hf | ⟨w, hw, hwp⟩
        · exact Or.inl hf
        · rcases List.mem_cons.mp hw with hw | hw
          · subst hw; exact absurd hwp hvac
          · exact Or.inr ⟨w, hw, hwp⟩
    · push_neg at h1
      obtain ⟨hk, hp⟩ := h1
      have hp' : vm.is_preload = false := by
        cases hpre : vm.is_preload
        · rfl
        · exact absurd hpre hp
      by_cases h2 : vm.running = true ∧ vm.paused = true
      · constructor
        · intro hrun
          rw [pauseAux, if_neg (by simp [hk, hp']),
              if_pos (by exact ⟨h2.1, h2.2⟩)] at hrun
          rcases (ih true).mp hrun with ⟨hall, _⟩
          refine ⟨?_, Or.inr ⟨vm, List.mem_cons_self _ _, hk, hp'⟩⟩
          intro w hw hwk hwp
          rcases List.mem_cons.mp hw with hw | hw
          · subst hw; exact h2
          · exact hall w hw hwk hwp
        · rintro ⟨hall, _⟩
          rw [pauseAux, if_neg (by simp [hk, hp']),
              if_pos (by exact ⟨h2.1, h2.2⟩)]
          exact (ih true).mpr
            ⟨fun w hw => hall w (List.mem_cons_of_mem _ hw), Or.inl rfl⟩
      · constructor
        · intro hrun
          rw [pauseAux, if_neg (by simp [hk, hp']), if_neg h2] at hrun
          exact absurd hrun (by simp)
        · rintro ⟨hall, _⟩
          exact absurd (hall vm (List.mem_cons_self _ _) hk hp') h2

/-- C2 amended: `have_running_and_all_are_paused` is `true` iff every
non-admin, non-preload domain is simultaneously running and paused, and
at least one such domain exists.  In particular a halted (or otherwise
not running-and-paused) non-admin, non-preload domain makes the aggregate
`false`, and the witnessing running domain is drawn from the non-admin,
non-preload domains only. -/
theorem c2_pause_aggregate_amended (doms : List DomInfo) :
    have_running_and_all_are_paused doms = true ↔
      ((∀ vm ∈ doms, vm.klass ≠ "AdminVM" → vm.is_preload = false →
          vm.running = true ∧ vm.paused = true)
       ∧ ∃ vm ∈ doms, vm.klass ≠ "AdminVM" ∧ vm.is_preload = false) := by
  rw [have_running_and_all_are_paused, pauseAux_spec]
  simp

/-! ### C4 — notification deduplication and withdrawal -/

/-- C4: the latch makes at most one all-paused notification outstanding.
Emission happens only when the latch is clear and sets it; withdrawal
happens only when the latch is set and clears it; two consecutive
rechecks while the aggregate stays true send exactly one notification;
after the aggregate goes false and then true again a new notification is
sent; and the latch accounts exactly for the sent-minus-withdrawn
difference. -/
theorem c4_notification_gate (doms1 doms2 : List DomInfo) (s : NotifState) :
    (s.pause_notification_out = false →
       emit_paused_notification s
         = { s with sentCount := s.sentCount + 1,
                    pause_notification_out := true })
    ∧ (s.pause_notification_out = true → emit_paused_notification s = s)
    ∧ (s.pause_notification_out = true →
       withdraw_paused_notification s
         = { s with withdrawnCount := s.withdrawnCount + 1,
                    pause_notification_out := false })
    ∧ (s.pause_notification_out = false → withdraw_paused_notification s = s)
    ∧ (have_running_and_all_are_paused doms1 = true →
       s.pause_notification_out = false →
       (check_pause_notify doms1 (check_pause_notify doms1 s)).sentCount
         = s.sentCount + 1)
    ∧ (have_running_and_all_are_paused doms1 = false →
       have_running_and_all_are_paused doms2 = true →
       (check_pause_notify doms2 (check_pause_notify doms1 s)).sentCount
         = s.sentCount + 1)
    ∧ (s.sentCount = s.withdrawnCount
         + (if s.pause_notification_out then 1 else 0) →
       (emit_paused_notification s).sentCount
         = (emit_paused_notification s).withdrawnCount
           + (if (emit_paused_notification s).pause_notification_out
              then 1 else 0)
       ∧ (withdraw_paused_notification s).sentCount
         = (withdraw_paused_notification s).withdrawnCount
           + (if (withdraw_paused_notification s).pause_notification_out
              then 1 else 0)) := by
  refine ⟨?_, ?_, ?_, ?_, ?_, ?_, ?_⟩
  · intro h; simp [emit_paused_notification, h]
  · intro h; simp [emit_paused_notification, h]
  · intro h; simp [withdraw_paused_notification, h]
  · intro h; simp [withdraw_paused_notification, h]
  · intro hagg h
    simp [check_pause_notify, hagg, emit_paused_notification, h]
  · intro h1 h2
    cases hl : s.pause_notification_out <;>
      simp [check_pause_notify, h1, h2, emit_paused_notification,
        withdraw_paused_notification, hl]
  · intro hinv
    cases hl : s.pause_notification_out <;>
      simp_all [emit_paused_notification, withdraw_paused_notification, hl]

/-- Witness for C4 at concrete inputs: from the initial state, rechecking
twice with all domains paused sends exactly one notification, and after
the aggregate clears and holds again a second notification goes out. -/
theorem c4_notification_gate_witness :
    have_running_and_all_are_paused [⟨"a", "AppVM", false, true, true⟩] = true
    ∧ (NotifState.mk false 0 0).pause_notification_out = false
    ∧ (check_pause_notify [⟨"a", "AppVM", false, true, true⟩]
        (check_pause_notify [⟨"a", "AppVM", false, true, true⟩]
          ⟨false, 0, 0⟩)).sentCount = 1
    ∧ have_running_and_all_are_paused [] = false
    ∧ (check_pause_notify [⟨"a", "AppVM", false, true, true⟩]
        (check_pause_notify [] ⟨true, 1, 0⟩)).sentCount = 2 :=
  ⟨by decide, by decide,
   (c4_notification_gate [⟨"a", "AppVM", false, true, true⟩] [] ⟨false, 0, 0⟩).2.2.2.2.1
     (by decide) (by decide),
   by decide,
   (c4_notification_gate [] [⟨"a", "AppVM", false, true, true⟩] ⟨true, 1, 0⟩).2.2.2.2.2.1
     (by decide) (by decide)⟩

/-! ### C8 — the modifier setter short-circuits -/

/-- C8: setting the shift flag to its current value is a no-op; on an
actual change one reconfiguration pass runs — so two consecutive calls
with the same value perform exactly one pass — and that pass rewrites the
run-terminal and shutdown/restart children of every live submenu to the
new value. -/
theorem c8_modifier_short_circuit (v : Bool) (s : ShiftState) :
    (v = s.shiftFlag → set_shift_pressed v s = s)
    ∧ (v ≠ s.shiftFlag →
        (set_shift_pressed v (set_shift_pressed v s)).passCount
          = s.passCount + 1
        ∧ (set_shift_pressed v s).items = s.items.map (reconfItem v)
        ∧ (set_shift_pressed v s).shiftFlag = v) := by
  constructor
  · intro h; simp [set_shift_pressed, h]
  · intro h
    refine ⟨?_, by simp [set_shift_pressed, h], by simp [set_shift_pressed, h]⟩
    simp [set_shift_pressed, h]

/-- Witness for C8 at a concrete input: one started-domain submenu; two
consecutive `set_shift_pressed true` calls from the unshifted state run
exactly one pass, and the pass flips the terminal to root and the
shutdown/restart items to forced. -/
theorem c8_modifier_short_circuit_witness :
    (true ≠ (ShiftState.mk false
        [⟨true, some [SubChild.runTerminal false, SubChild.shutdownAct false,
                      SubChild.restartAct false, SubChild.otherChild]⟩] 0).shiftFlag)
    ∧ (set_shift_pressed true (set_shift_pressed true
        ⟨false, [⟨true, some [SubChild.runTerminal false, SubChild.shutdownAct false,
                              SubChild.restartAct false, SubChild.otherChild]⟩],
         0⟩)).passCount = 1
    ∧ (set_shift_pressed true
        ⟨false, [⟨true, some [SubChild.runTerminal false, SubChild.shutdownAct false,
                              SubChild.restartAct false, SubChild.otherChild]⟩],
         0⟩).items
      = [⟨true, some [SubChild.runTerminal true, SubChild.shutdownAct true,
                      SubChild.restartAct true, SubChild.otherChild]⟩] := by
  refine ⟨by decide, ?_, ?_⟩
  · exact (c8_modifier_short_circuit true _).2 (by decide) |>.1
  · have h := (c8_modifier_short_circuit true
      (ShiftState.mk false
        [⟨true, some [SubChild.runTerminal false, SubChild.shutdownAct false,
                      SubChild.restartAct false, SubChild.otherChild]⟩] 0)).2
      (by decide) |>.2.1
    rw [h]; decide

/-! ### C9 — best-effort bulk unpause -/

/-- C9: the bulk unpause walks every tracked name except `dom0` and the
preload domains and attempts to unpause each one; per-domain
`QubesException` failures (`unpauseFails`) never appear in the result, so
a permission-denied failure is ignored and the walk continues.  The
hypothesis says every non-`dom0` tracked name still resolves (an
unresolvable name would raise an uncaught `KeyError`). -/
theorem c9_unpause_all_best_effort (env : UnpEnv) (names : List String)
    (h : ∀ n ∈ names, n ≠ "dom0" → (env.lookup n).isSome = true) :
    do_unpause_all env names
      = Except.ok (names.filter (fun n => !unpauseSkipped env n)) := by
  induction names with
  | nil => rfl
  | cons n rest ih =>
    have hrest : ∀ m ∈ rest, m ≠ "dom0" → (env.lookup m).isSome = true :=
      fun m hm => h m (List.mem_cons_of_mem _ hm)
    by_cases hd : n = "dom0"
    · subst hd
      simp [do_unpause_all, ih hrest, unpauseSkipped]
    · cases hl : env.lookup n with
      | none =>
        have := h n (List.mem_cons_self _ _) hd
        rw [hl] at this
        exact absurd this (by simp)
      | some d =>
        by_cases hp : d.is_preload = true
        · simp [do_unpause_all, hd, hl, hp, ih hrest, unpauseSkipped]
        · have hp' : d.is_preload = false := by
            cases hpre : d.is_preload
            · rfl
            · exact absurd hpre hp
          simp [do_unpause_all, hd, hl, hp', ih hrest, unpauseSkipped]

/-- Witness for C9 at a concrete input: `dom0` and the preload are
passed over; `work` (whose unpause fails) and `personal` are both
attempted, the failure notwithstanding. -/
theorem c9_unpause_all_best_effort_witness :
    (∀ n ∈ ["dom0", "pre1", "work", "personal"], n ≠ "dom0" →
      ((UnpEnv.mk (fun n =>
          if n = "pre1" then some ⟨true, false⟩
          else if n = "work" then some ⟨false, true⟩
          else if n = "personal" then some ⟨false, false⟩
          else none)).lookup n).isSome = true)
    ∧ do_unpause_all
        (UnpEnv.mk (fun n =>
          if n = "pre1" then some ⟨true, false⟩
          else if n = "work" then some ⟨false, true⟩
          else if n = "personal" then some ⟨false, false⟩
          else none))
        ["dom0", "pre1", "work", "personal"]
      = Except.ok ["work", "personal"] := by
  refine ⟨by decide, ?_⟩
  rw [c9_unpause_all_best_effort _ _ (by decide)]
  decide

theorem mkItem_name (vm : LiveVM) (st : String) :
    (mkItem vm st).name = vm.name := by
  by_cases h : vm.klass = "AdminVM" <;> simp [mkItem, h]

theorem mkItem_updateState (vm : LiveVM) (s1 s2 : String) :
    (mkItem vm s1).updateState s2 = mkItem vm s2 := by
  by_cases h : vm.klass = "AdminVM" <;> simp [mkItem, Item.updateState, h]

theorem modifyItem_insertAt (f : Item → Item) (menu : List MenuEntry)
    (it : Item) (p : Nat) (h : findItem menu it.name = none) :
    modifyItem f it.name (insertAt (MenuEntry.item it) p menu)
      = insertAt (MenuEntry.item (f it)) p menu := by
  induction menu generalizing p with
  | nil => cases p <;> simp [insertAt, modifyItem]
  | cons e rest ih =>
    cases p with
    | zero => simp [insertAt, modifyItem]
    | succ k =>
      cases e with
      | header =>
        simpa [insertAt, modifyItem] using ih k (by simpa [findItem] using h)
      | other =>
        simpa [insertAt, modifyItem] using ih k (by simpa [findItem] using h)
      | item it2 =>
        have hne : ¬ it2.name = it.name := by
          intro hcontra
          simp [findItem, hcontra] at h
        simp only [findItem, hne, if_false] at h
        simpa [insertAt, modifyItem, hne] using ih k h

theorem findItem_append_of_none (m1 m2 : List MenuEntry) (nm : String)
    (h : findItem m1 nm = none) :
    findItem (m1 ++ m2) nm = findItem m2 nm := by
  induction m1 with
  | nil => rfl
  | cons e rest ih =>
    cases e with
    | header => simpa [findItem] using ih (by simpa [findItem] using h)
    | other => simpa [findItem] using ih (by simpa [findItem] using h)
    | item it =>
      have hne : ¬ it.name = nm := by
        intro hcontra
        simp [findItem, hcontra] at h
      simp only [findItem, hne, if_false] at h
      simpa [findItem, hne] using ih h

/-- `add_domain_item` either leaves the menu unchanged or leaves the
looked-up identity present in it. -/
theorem addDomainItem_id_or_found (q : Qapp) (menu : List MenuEntry)
    (event : Option String) (n : String) :
    addDomainItem q menu event n = menu
    ∨ (findItem (addDomainItem q menu event n) n).isSome = true := by
  unfold addDomainItem
  cases hq : q.find n with
  | none => exact Or.inl rfl
  | some vm =>
    have hn : vm.name = n := Qapp.find_name hq
    cases hf : (findItem menu vm.name).isSome with
    | true => exact Or.inl (by simp [hf])
    | false =>
      have habs : findItem menu n = none := by
        rw [hn] at hf
        cases hfi : findItem menu n
        · rfl
        · rw [hfi] at hf; simp at hf
      cases hres : resolveAddState event vm with
      | none => exact Or.inl (by simp [hf, hres])
      | some st =>
        simp only [hf, hres, Bool.false_eq_true, if_false]
        have hfound1 : findItem (menu ++ [MenuEntry.item (mkItem vm st)]) n
            = some (mkItem vm st) := by
          rw [findItem_append_of_none _ _ _ habs]
          simp [findItem, mkItem_name, hn]
        cases event with
        | none => simp [hfound1]
        | some e =>
          by_cases he : e = ""
          · simp [he, hfound1]
          · have hfound2 := findItem_insertAt menu (mkItem vm st)
              (insertPosition vm.name menu) (by rw [mkItem_name, hn]; exact habs)
            rw [mkItem_name] at hfound2
            refine Or.inr ?_
            simp only [he, if_false]
            rw [hn] at hfound2 ⊢
            simp [hfound2]

/-- The creation branch of `add_domain_item` made explicit: for a fresh
identity resolving to a live domain whose state resolves to `st`, a
truthy event inserts the freshly built item at the scanned position. -/
theorem addDomainItem_creates (q : Qapp) (menu : List MenuEntry)
    (e n : String) (vm : LiveVM) (st : String)
    (hq : q.find n = some vm) (habs : findItem menu n = none) (he : e ≠ "")
    (hres : resolveAddState (some e) vm = some st) :
    addDomainItem q menu (some e) n
      = insertAt (MenuEntry.item (mkItem vm st)) (insertPosition n menu)
          menu := by
  have hn : vm.name = n := Qapp.find_name hq
  unfold addDomainItem
  simp [hq, hn, habs, hres, he]

/-- The abort branch of `add_domain_item` made explicit: a fresh identity
whose state resolution fails (the vanished-domain re-check) leaves the
menu unchanged. -/
theorem addDomainItem_aborts (q : Qapp) (menu : List MenuEntry)
    (event : Option String) (n : String) (vm : LiveVM)
    (hq : q.find n = some vm) (habs : findItem menu n = none)
    (hres : resolveAddState event vm = none) :
    addDomainItem q menu event n = menu := by
  have hn : vm.name = n := Qapp.find_name hq
  unfold addDomainItem
  simp [hq, hn, habs, hres]

theorem updateDomainItem_absent (q : Qapp) (menu : List MenuEntry)
    (n E : String) (habs : findItem menu n = none) :
    updateDomainItem q menu n E
      = (if (findItem (addDomainItem q menu (some E) n) n).isSome = true then
           postStateEffects q n E
             (modifyItem (fun it => it.updateState (resolveState q n E)) n
               (addDomainItem q menu (some E) n))
         else addDomainItem q menu (some E) n) := by
  simp [updateDomainItem, habs]

theorem updateDomainItem_present (q : Qapp) (menu : List MenuEntry)
    (n E : String) (h : (findItem menu n).isSome = true) :
    updateDomainItem q menu n E
      = postStateEffects q n E
          (modifyItem (fun it => it.updateState (resolveState q n E)) n
            menu) := by
  simp [updateDomainItem, h]

/-- Two unknown-kind truthy events drive `add_domain_item` identically. -/
theorem addDomainItem_unknown_eq (q : Qapp) (menu : List MenuEntry)
    (e1 e2 n : String) (h1 : STATE_DICTIONARY e1 = none)
    (h2 : STATE_DICTIONARY e2 = none) (hne1 : e1 ≠ "") (hne2 : e2 ≠ "") :
    addDomainItem q menu (some e1) n = addDomainItem q menu (some e2) n := by
  unfold addDomainItem
  cases hq : q.find n with
  | none => rfl
  | some vm => simp [resolveAddState, h1, h2, hne1, hne2]

/-! ### C3 — the menu ordering invariant -/

/-- A menu in block shape: `nh` header entries, then the AdminVM items,
then the remaining items, then `no` trailing non-domain widgets. -/
def buildMenu (nh : Nat) (admins regulars : List Item) (no : Nat) :
    List MenuEntry :=
  List.replicate nh MenuEntry.header
    ++ (admins.map MenuEntry.item
        ++ (regulars.map MenuEntry.item
            ++ List.replicate no MenuEntry.other))

/-- The ordering invariant of the tray menu: header entries first, then
the AdminVM items in their insertion order (they are never reordered),
then the remaining items in strictly ascending name order, then the
trailing non-domain widgets. -/
def menuInvariant (menu : List MenuEntry) : Prop :=
  ∃ (nh : Nat) (admins regulars : List Item) (no : Nat),
    menu = buildMenu nh admins regulars no
    ∧ (∀ it ∈ admins, it.klass = "AdminVM")
    ∧ (∀ it ∈ regulars, it.klass ≠ "AdminVM")
    ∧ List.Pairwise (fun a b => a.name < b.name) regulars

/-- A reconciliation operation on the menu, as the claim ranges over
them: an event-driven insertion through `add_domain_item`, or a removal
through `remove_domain_item`. -/
inductive TrayOp
  | addEvt (q : Qapp) (event : String) (vmName : String)
  | removeName (vmName : String)

def applyOp (menu : List MenuEntry) : TrayOp → List MenuEntry
  | .addEvt q e n => addDomainItem q menu (some e) n
  | .removeName n => removeDomainItem menu n

def applyOps (menu : List MenuEntry) : List TrayOp → List MenuEntry
  | [] => menu
  | op :: ops => applyOps (applyOp menu op) ops

/-- The conditions under which the claim describes an operation: an
insertion carries a truthy event kind and concerns a non-AdminVM domain;
removals are unrestricted. -/
def goodOp : TrayOp → Prop
  | .addEvt q e n => e ≠ "" ∧ ∀ vm, q.find n = some vm → vm.klass ≠ "AdminVM"
  | .removeName _ => True

theorem mkItem_klass (vm : LiveVM) (st : String) :
    (mkItem vm st).klass = vm.klass := by
  by_cases h : vm.klass = "AdminVM" <;> simp [mkItem, h]

theorem insertPosition_header_cons (n : String) (rest : List MenuEntry) :
    insertPosition n (MenuEntry.header :: rest)
      = insertPosition n rest + 1 := rfl

theorem insertPosition_item_cons (n : String) (it : Item)
    (rest : List MenuEntry) :
    insertPosition n (MenuEntry.item it :: rest)
      = if it.klass = "AdminVM" then insertPosition n rest + 1
        else if n < it.name then 0 else insertPosition n rest + 1 := rfl

theorem insertPosition_headers (n : String) (k : Nat) (X : List MenuEntry) :
    insertPosition n (List.replicate k MenuEntry.header ++ X)
      = k + insertPosition n X := by
  induction k with
  | zero => simp
  | succ m ih =>
    rw [List.replicate_succ, List.cons_append, insertPosition_header_cons, ih]
    omega

theorem insertPosition_admins (n : String) (admins : List Item)
    (X : List MenuEntry) (h : ∀ it ∈ admins, it.klass = "AdminVM") :
    insertPosition n (admins.map MenuEntry.item ++ X)
      = admins.length + insertPosition n X := by
  induction admins with
  | nil => simp
  | cons a rest ih =>
    have ha : a.klass = "AdminVM" := h a (List.mem_cons_self _ _)
    have hrest : ∀ it ∈ rest, it.klass = "AdminVM" :=
      fun it hit => h it (List.mem_cons_of_mem _ hit)
    rw [List.map_cons, List.cons_append, insertPosition_item_cons, if_pos ha,
      ih hrest, List.length_cons]
    omega

theorem insertPosition_others (n : String) (k : Nat) :
    insertPosition n (List.replicate k MenuEntry.other) = 0 := by
  cases k <;> simp [List.replicate, insertPosition]

theorem insertPosition_regulars (n : String) (regulars : List Item) (k : Nat)
    (h : ∀ it ∈ regulars, it.klass ≠ "AdminVM") :
    insertPosition n (regulars.map MenuEntry.item
        ++ List.replicate k MenuEntry.other)
      = (regulars.takeWhile (fun r => !decide (n < r.name))).length := by
  induction regulars with
  | nil => simpa using insertPosition_others n k
  | cons r rest ih =>
    have hr : r.klass ≠ "AdminVM" := h r (List.mem_cons_self _ _)
    have hrest : ∀ it ∈ rest, it.klass ≠ "AdminVM" :=
      fun it hit => h it (List.mem_cons_of_mem _ hit)
    rw [List.map_cons, List.cons_append, insertPosition_item_cons, if_neg hr]
    by_cases hlt : n < r.name
    · have hdec : (!decide (n < r.name)) = false := by simp [hlt]
      rw [if_pos hlt, List.takeWhile_cons, hdec]
      simp
    · have hdec : (!decide (n < r.name)) = true := by simp [hlt]
      rw [if_neg hlt, List.takeWhile_cons, hdec, ih hrest]
      simp

theorem insertAt_length_append {α : Type} (x : α) (l1 l2 : List α)
    (k : Nat) :
    insertAt x (l1.length + k) (l1 ++ l2) = l1 ++ insertAt x k l2 := by
  induction l1 with
  | nil => simp
  | cons e rest ih =>
    have harith : (e :: rest).length + k = (rest.length + k) + 1 := by
      simp only [List.length_cons]
      omega
    rw [harith]
    simp [insertAt, ih]

theorem takeWhile_names_lt (n : String) (regulars : List Item)
    (hfresh : n ∉ regulars.map Item.name) :
    ∀ a ∈ regulars.takeWhile (fun r => !decide (n < r.name)),
      a.name < n := by
  induction regulars with
  | nil => simp
  | cons r rest ih =>
    have hne : r.name ≠ n := by
      intro hc
      exact hfresh (by simp [hc])
    have hfrest : n ∉ rest.map Item.name := fun hc => hfresh (by simp [hc])
    by_cases hlt : n < r.name
    · have hdec : (!decide (n < r.name)) = false := by simp [hlt]
      rw [List.takeWhile_cons, hdec]
      simp
    · have hdec : (!decide (n < r.name)) = true := by simp [hlt]
      intro a ha
      rw [List.takeWhile_cons, hdec, if_pos rfl] at ha
      rcases List.mem_cons.mp ha with rfl | ha2
      · exact lt_of_le_of_ne (not_lt.mp hlt) hne
      · exact ih hfrest a ha2

theorem dropWhile_names_gt (n : String) (regulars : List Item)
    (hsort : List.Pairwise (fun a b => a.name < b.name) regulars) :
    ∀ b ∈ regulars.dropWhile (fun r => !decide (n < r.name)),
      n < b.name := by
  induction regulars with
  | nil => simp
  | cons r rest ih =>
    rcases List.pairwise_cons.mp hsort with ⟨hr, hrest⟩
    by_cases hlt : n < r.name
    · have hdec : (!decide (n < r.name)) = false := by simp [hlt]
      intro b hb
      rw [List.dropWhile_cons, hdec, if_neg (by decide)] at hb
      rcases List.mem_cons.mp hb with rfl | hb2
      · exact hlt
      · exact lt_trans hlt (hr b hb2)
    · have hdec : (!decide (n < r.name)) = true := by simp [hlt]
      intro b hb
      rw [List.dropWhile_cons, hdec, if_pos rfl] at hb
      exact ih hrest b hb

/-- The names of the items of a menu in block shape. -/
theorem itemNames_buildMenu (nh : Nat) (a r : List Item) (no : Nat) :
    itemNames (buildMenu nh a r no) = a.map Item.name ++ r.map Item.name := by
  unfold buildMenu
  induction nh with
  | zero =>
    simp only [List.replicate, List.nil_append]
    induction a with
    | nil =>
      simp only [List.map_nil, List.nil_append]
      induction r with
      | nil =>
        simp only [List.map_nil, List.nil_append]
        induction no with
        | zero => rfl
        | succ m ihm => simpa [List.replicate, itemNames] using ihm
      | cons x xs ihr => simpa [itemNames] using ihr
    | cons x xs iha => simpa [itemNames] using iha
  | succ m ihm => simpa [List.replicate, itemNames] using ihm

/-- Insertion through the event branch of `add_domain_item`, on a menu in
block shape: the new item lands right after the headers, the admin block,
and those remaining entries whose names do not exceed the new name — that
is, immediately before the first entry whose name exceeds it. -/
theorem addDomainItem_sorted_insert (q : Qapp) (e n : String) (vm : LiveVM)
    (st : String) (nh : Nat) (admins regulars : List Item) (no : Nat)
    (hq : q.find n = some vm) (he : e ≠ "")
    (hres : resolveAddState (some e) vm = some st)
    (hA : ∀ it ∈ admins, it.klass = "AdminVM")
    (hR : ∀ it ∈ regulars, it.klass ≠ "AdminVM")
    (hfa : n ∉ admins.map Item.name) (hfr : n ∉ regulars.map Item.name) :
    addDomainItem q (buildMenu nh admins regulars no) (some e) n
      = (List.replicate nh MenuEntry.header ++ admins.map MenuEntry.item
          ++ (regulars.takeWhile (fun r => !decide (n < r.name))).map
               MenuEntry.item)
        ++ MenuEntry.item (mkItem vm st)
           :: ((regulars.dropWhile (fun r => !decide (n < r.name))).map
                 MenuEntry.item
               ++ List.replicate no MenuEntry.other) := by
  have habs : findItem (buildMenu nh admins regulars no) n = none := by
    rw [findItem_eq_none_iff, itemNames_buildMenu]
    simp only [List.mem_append]
    rintro (hc | hc)
    · exact hfa hc
    · exact hfr hc
  rw [addDomainItem_creates q _ e n vm st hq habs he hres]
  have hsplit : regulars.map MenuEntry.item
      = (regulars.takeWhile (fun r => !decide (n < r.name))).map
          MenuEntry.item
        ++ (regulars.dropWhile (fun r => !decide (n < r.name))).map
             MenuEntry.item := by
    rw [← List.map_append, List.takeWhile_append_dropWhile]
  have hmenu : buildMenu nh admins regulars no
      = (List.replicate nh MenuEntry.header ++ admins.map MenuEntry.item
          ++ (regulars.takeWhile (fun r => !decide (n < r.name))).map
               MenuEntry.item)
        ++ ((regulars.dropWhile (fun r => !decide (n < r.name))).map
              MenuEntry.item
            ++ List.replicate no MenuEntry.other) := by
    rw [buildMenu, hsplit]
    simp [List.append_assoc]
  have hpos : insertPosition n (buildMenu nh admins regulars no)
      = (List.replicate nh MenuEntry.header ++ admins.map MenuEntry.item
          ++ (regulars.takeWhile (fun r => !decide (n < r.name))).map
               MenuEntry.item).length + 0 := by
    rw [buildMenu, insertPosition_headers, insertPosition_admins n _ _ hA,
      insertPosition_regulars n _ _ hR]
    simp only [List.length_append, List.length_replicate, List.length_map]
    omega
  rw [hpos]
  conv =>
    lhs
    rw [hmenu]
  rw [insertAt_length_append]
  rfl

/-- Whether some item of the list carries this name. -/
def hasName (n : String) : List Item → Bool
  | [] => false
  | it :: rest => decide (it.name = n) || hasName n rest

/-- First-match erasure on a block of items. -/
def eraseItemL (n : String) : List Item → List Item
  | [] => []
  | it :: rest => if it.name = n then rest else it :: eraseItemL n rest

theorem eraseItemL_sublist (n : String) (l : List Item) :
    List.Sublist (eraseItemL n l) l := by
  induction l with
  | nil => exact List.Sublist.refl _
  | cons it rest ih =>
    by_cases h : it.name = n
    · rw [eraseItemL, if_pos h]
      exact List.Sublist.cons it (List.Sublist.refl rest)
    · rw [eraseItemL, if_neg h]
      exact List.Sublist.cons₂ it ih

theorem eraseItem_headers (n : String) (k : Nat) (X : List MenuEntry) :
    eraseItem n (List.replicate k MenuEntry.header ++ X)
      = List.replicate k MenuEntry.header ++ eraseItem n X := by
  induction k with
  | zero => simp
  | succ m ih =>
    rw [List.replicate_succ, List.cons_append]
    simp [eraseItem, ih]

theorem eraseItem_others (n : String) (k : Nat) :
    eraseItem n (List.replicate k MenuEntry.other)
      = List.replicate k MenuEntry.other := by
  induction k with
  | zero => rfl
  | succ m ih =>
    rw [List.replicate_succ]
    simp [eraseItem, ih]

theorem eraseItem_items (n : String) (l : List Item) (X : List MenuEntry) :
    eraseItem n (l.map MenuEntry.item ++ X)
      = if hasName n l then (eraseItemL n l).map MenuEntry.item ++ X
        else l.map MenuEntry.item ++ eraseItem n X := by
  induction l with
  | nil => simp [hasName]
  | cons it rest ih =>
    by_cases h : it.name = n
    · simp [eraseItem, hasName, eraseItemL, h]
    · rw [List.map_cons, List.cons_append]
      have hstep : eraseItem n
          (MenuEntry.item it :: (rest.map MenuEntry.item ++ X))
          = MenuEntry.item it :: eraseItem n (rest.map MenuEntry.item ++ X) :=
        by simp [eraseItem, h]
      rw [hstep, ih]
      by_cases h2 : hasName n rest = true
      · simp [hasName, h, h2, eraseItemL]
      · simp [hasName, h, h2]

/-- `remove_domain_item` preserves the ordering invariant. -/
theorem removeDomainItem_invariant (menu : List MenuEntry) (n : String)
    (hinv : menuInvariant menu) :
    menuInvariant (removeDomainItem menu n) := by
  obtain ⟨nh, a, r, no, hm, hA, hR, hS⟩ := hinv
  unfold removeDomainItem
  by_cases hfi : (findItem menu n).isSome = true
  · rw [if_pos hfi]
    subst hm
    rw [buildMenu, eraseItem_headers, eraseItem_items]
    by_cases h1 : hasName n a = true
    · rw [if_pos h1]
      exact ⟨nh, eraseItemL n a, r, no, rfl,
        fun it hit => hA it ((eraseItemL_sublist n a).subset hit), hR, hS⟩
    · rw [if_neg h1, eraseItem_items]
      by_cases h2 : hasName n r = true
      · rw [if_pos h2]
        exact ⟨nh, a, eraseItemL n r, no, rfl, hA,
          fun it hit => hR it ((eraseItemL_sublist n r).subset hit),
          List.Pairwise.sublist (eraseItemL_sublist n r) hS⟩
      · rw [if_neg h2, eraseItem_others]
        exact ⟨nh, a, r, no, rfl, hA, hR, hS⟩
  · rw [if_neg hfi]
    exact ⟨nh, a, r, no, hm, hA, hR, hS⟩

/-- The event branch of `add_domain_item` preserves the ordering
invariant when the inserted domain is not an AdminVM. -/
theorem addDomainItem_invariant (q : Qapp) (menu : List MenuEntry)
    (e n : String) (he : e ≠ "")
    (hadm : ∀ vm, q.find n = some vm → vm.klass ≠ "AdminVM")
    (hinv : menuInvariant menu) :
    menuInvariant (addDomainItem q menu (some e) n) := by
  obtain ⟨nh, a, r, no, hm, hA, hR, hS⟩ := hinv
  cases hq : q.find n with
  | none =>
    have hid : addDomainItem q menu (some e) n = menu := by
      simp [addDomainItem, hq]
    rw [hid]
    exact ⟨nh, a, r, no, hm, hA, hR, hS⟩
  | some vm =>
    have hn : vm.name = n := Qapp.find_name hq
    by_cases hfi : (findItem menu n).isSome = true
    · have hid : addDomainItem q menu (some e) n = menu := by
        unfold addDomainItem
        simp only [hq, hn, hfi, if_true]
      rw [hid]
      exact ⟨nh, a, r, no, hm, hA, hR, hS⟩
    · have habs : findItem menu n = none := by
        cases hfe : findItem menu n
        · rfl
        · rw [hfe] at hfi; simp at hfi
      cases hres : resolveAddState (some e) vm with
      | none =>
        rw [addDomainItem_aborts q menu (some e) n vm hq habs hres]
        exact ⟨nh, a, r, no, hm, hA, hR, hS⟩
      | some st =>
        subst hm
        have hnames : n ∉ a.map Item.name ∧ n ∉ r.map Item.name := by
          have hni := (findItem_eq_none_iff _ n).mp habs
          rw [itemNames_buildMenu] at hni
          constructor <;> intro hc <;> exact hni (by simp [hc])
        rw [addDomainItem_sorted_insert q e n vm st nh a r no hq he hres hA
          hR hnames.1 hnames.2]
        have htd : r.takeWhile (fun x => !decide (n < x.name))
            ++ r.dropWhile (fun x => !decide (n < x.name)) = r :=
          List.takeWhile_append_dropWhile (fun x => !decide (n < x.name)) r
        have hsubT : ∀ x ∈ r.takeWhile (fun x => !decide (n < x.name)),
            x ∈ r := by
          intro x hx
          rw [← htd]
          exact List.mem_append_left _ hx
        have hsubD : ∀ x ∈ r.dropWhile (fun x => !decide (n < x.name)),
            x ∈ r := by
          intro x hx
          rw [← htd]
          exact List.mem_append_right _ hx
        have hT := takeWhile_names_lt n r hnames.2
        have hD := dropWhile_names_gt n r hS
        have hPr : List.Pairwise (fun x y => x.name < y.name)
            (r.takeWhile (fun x => !decide (n < x.name))
              ++ r.dropWhile (fun x => !decide (n < x.name))) := by
          rw [htd]
          exact hS
        rcases List.pairwise_append.mp hPr with ⟨hPt, hPd, hcross⟩
        refine ⟨nh, a,
          r.takeWhile (fun x => !decide (n < x.name))
            ++ mkItem vm st :: r.dropWhile (fun x => !decide (n < x.name)),
          no, ?_, hA, ?_, ?_⟩
        · simp [buildMenu, List.append_assoc]
        · intro it hit
          rcases List.mem_append.mp hit with h1 | h1
          · exact hR it (hsubT it h1)
          · rcases List.mem_cons.mp h1 with rfl | h2
            · rw [mkItem_klass]
              exact hadm vm hq
            · exact hR it (hsubD it h2)
        · refine List.pairwise_append.mpr ⟨hPt, ?_, ?_⟩
          · refine List.pairwise_cons.mpr ⟨?_, hPd⟩
            intro b hb
            rw [mkItem_name, hn]
            exact hD b hb
          · intro x hx y hy
            rcases List.mem_cons.mp hy with rfl | hy2
            · rw [mkItem_name, hn]
              exact hT x hx
            · exact lt_trans (hT x hx) (hD y hy2)

theorem applyOp_invariant (menu : List MenuEntry) (op : TrayOp)
    (hinv : menuInvariant menu) (hop : goodOp op) :
    menuInvariant (applyOp menu op) := by
  cases op with
  | addEvt q e n => exact addDomainItem_invariant q menu e n hop.1 hop.2 hinv
  | removeName n => exact removeDomainItem_invariant menu n hinv

theorem applyOps_invariant (menu : List MenuEntry) (ops : List TrayOp)
    (hinv : menuInvariant menu) (hops : ∀ op ∈ ops, goodOp op) :
    menuInvariant (applyOps menu ops) := by
  induction ops generalizing menu with
  | nil => exact hinv
  | cons op rest ih =>
    exact ih (applyOp menu op)
      (applyOp_invariant menu op hinv (hops op (List.mem_cons_self _ _)))
      (fun o ho => hops o (List.mem_cons_of_mem _ ho))

/-- C3: starting from any menu satisfying the ordering invariant, any
sequence of event-driven non-admin insertions and removals preserves it —
header first, AdminVM items in insertion order, remaining items strictly
ascending by name, trailing widgets last; and each insertion places the
new entry by scanning past the headers and the admin block to the
position just before the first remaining entry whose name exceeds the new
name. -/
theorem c3_menu_ordering (menu : List MenuEntry) (ops : List TrayOp)
    (hinv : menuInvariant menu) (hops : ∀ op ∈ ops, goodOp op) :
    menuInvariant (applyOps menu ops)
    ∧ (∀ (q : Qapp) (e n : String) (vm : LiveVM) (st : String)
        (nh : Nat) (admins regulars : List Item) (no : Nat),
        q.find n = some vm → vm.klass ≠ "AdminVM" → e ≠ "" →
        resolveAddState (some e) vm = some st →
        menu = buildMenu nh admins regulars no →
        (∀ it ∈ admins, it.klass = "AdminVM") →
        (∀ it ∈ regulars, it.klass ≠ "AdminVM") →
        n ∉ admins.map Item.name → n ∉ regulars.map Item.name →
        addDomainItem q menu (some e) n
          = (List.replicate nh MenuEntry.header
              ++ admins.map MenuEntry.item
              ++ (regulars.takeWhile (fun x => !decide (n < x.name))).map
                   MenuEntry.item)
            ++ MenuEntry.item (mkItem vm st)
               :: ((regulars.dropWhile (fun x => !decide (n < x.name))).map
                     MenuEntry.item
                   ++ List.replicate no MenuEntry.other)) := by
  refine ⟨applyOps_invariant menu ops hinv hops, ?_⟩
  intro q e n vm st nh admins regulars no hq _hk he hres hm hA hR hfa hfr
  subst hm
  exact addDomainItem_sorted_insert q e n vm st nh admins regulars no hq he
    hres hA hR hfa hfr

/-- String order through `toList`, where the kernel can compute. -/
theorem strLt_of_toList {a b : String} (h : a.toList < b.toList) : a < b :=
  String.lt_iff_toList_lt.mpr h

theorem strNotLt_of_toList {a b : String} (h : ¬ a.toList < b.toList) :
    ¬ a < b :=
  fun hc => h (String.lt_iff_toList_lt.mp hc)

/-- The live collection of the C3 witness: one non-admin domain `mango`
that can be inserted by a `domain-start` event. -/
def exQ3 : Qapp :=
  ⟨[⟨"mango", "AppVM", some "Running", false, false, Except.ok true,
     Except.ok (none, none), [], false⟩]⟩

/-- The starting menu of the C3 witness: header, `dom0`, then `apple` and
`zebra` in ascending order, then a trailing widget. -/
def exStart : List MenuEntry :=
  buildMenu 1 [⟨"dom0", "AdminVM", "", true, false⟩]
    [⟨"apple", "AppVM", "Running", true, false⟩,
     ⟨"zebra", "AppVM", "Running", true, false⟩] 1

/-- The C3 witness operations: insert `mango` by event, then remove
`apple`. -/
def exOps : List TrayOp :=
  [TrayOp.addEvt exQ3 "domain-start" "mango", TrayOp.removeName "apple"]

/-- Witness for C3 at a concrete input: the start menu satisfies the
invariant, both operations are in the claim's scope, the invariant holds
after applying them, and the resulting menu is exactly header, `dom0`,
then `mango` and `zebra` in ascending order. -/
theorem c3_menu_ordering_witness :
    menuInvariant exStart
    ∧ (∀ op ∈ exOps, goodOp op)
    ∧ menuInvariant (applyOps exStart exOps)
    ∧ applyOps exStart exOps
      = buildMenu 1 [⟨"dom0", "AdminVM", "", true, false⟩]
          [⟨"mango", "AppVM", "Running", true, false⟩,
           ⟨"zebra", "AppVM", "Running", true, false⟩] 1 := by
  have hpair : List.Pairwise (fun a b : Item => a.name < b.name)
      [⟨"apple", "AppVM", "Running", true, false⟩,
       ⟨"zebra", "AppVM", "Running", true, false⟩] := by
    refine List.pairwise_cons.mpr ⟨?_, ?_⟩
    · intro b hb
      rcases List.mem_cons.mp hb with rfl | hb2
      · exact strLt_of_toList (by decide)
      · simp at hb2
    · exact List.pairwise_cons.mpr ⟨by intro b hb; simp at hb,
        List.Pairwise.nil⟩
  have hinv : menuInvariant exStart :=
    ⟨1, [⟨"dom0", "AdminVM", "", true, false⟩],
     [⟨"apple", "AppVM", "Running", true, false⟩,
      ⟨"zebra", "AppVM", "Running", true, false⟩], 1, rfl,
     by decide, by decide, hpair⟩
  have hops : ∀ op ∈ exOps, goodOp op := by
    intro op hop
    rcases List.mem_cons.mp hop with rfl | hop
    · refine ⟨by decide, ?_⟩
      intro vm h
      have he : exQ3.find "mango"
          = some ⟨"mango", "AppVM", some "Running", false, false,
              Except.ok true, Except.ok (none, none), [], false⟩ := by decide
      rw [he] at h
      cases h
      decide
    · rcases List.mem_cons.mp hop with rfl | hop
      · exact trivial
      · simp at hop
  have hnm : ¬ ("mango" : String) < "apple" :=
    @strNotLt_of_toList "mango" "apple" (by decide)
  have hmz : ("mango" : String) < "zebra" :=
    @strLt_of_toList "mango" "zebra" (by decide)
  have hd1 : decide (("mango" : String) < "apple") = false :=
    decide_eq_false hnm
  have hd2 : decide (("mango" : String) < "zebra") = true :=
    decide_eq_true hmz
  have hins := (c3_menu_ordering exStart exOps hinv hops).2 exQ3
    "domain-start" "mango"
    ⟨"mango", "AppVM", some "Running", false, false, Except.ok true,
     Except.ok (none, none), [], false⟩ "Running" 1
    [⟨"dom0", "AdminVM", "", true, false⟩]
    [⟨"apple", "AppVM", "Running", true, false⟩,
     ⟨"zebra", "AppVM", "Running", true, false⟩] 1
    (by decide) (by decide) (by decide) (by decide) rfl (by decide)
    (by decide) (by decide) (by decide)
  have htw : List.takeWhile
      (fun x : Item => !decide (("mango" : String) < x.name))
      [⟨"apple", "AppVM", "Running", true, false⟩,
       ⟨"zebra", "AppVM", "Running", true, false⟩]
      = [⟨"apple", "AppVM", "Running", true, false⟩] := by
    simp [List.takeWhile_cons, hd1, hd2]
    decide
  have hdw : List.dropWhile
      (fun x : Item => !decide (("mango" : String) < x.name))
      [⟨"apple", "AppVM", "Running", true, false⟩,
       ⟨"zebra", "AppVM", "Running", true, false⟩]
      = [⟨"zebra", "AppVM", "Running", true, false⟩] := by
    simp [List.dropWhile_cons, hd1, hd2]
    decide
  rw [htw, hdw] at hins
  have h4 : applyOps exStart exOps
      = removeDomainItem
          (addDomainItem exQ3 exStart (some "domain-start") "mango")
          "apple" := rfl
  refine ⟨hinv, hops, (c3_menu_ordering exStart exOps hinv hops).1, ?_⟩
  rw [h4, hins]
  decide

/-! ### C6 — outdated-template propagation on shutdown -/

/-- The per-domain items of a menu (the value set of `self.menu_items`),
in menu order. -/
def menuItemsOf : List MenuEntry → List Item
  | [] => []
  | .item it :: rest => it :: menuItemsOf rest
  | _ :: rest => menuItemsOf rest

/-- The claim-level condition under which the outdated scan flags a
domain: it is currently running, its template chain (direct template or
that template's template) contains the shut-down domain, and at least
one of its volumes is flagged out of date. -/
def scanFlagged (q : Qapp) (shutName itName : String) : Bool :=
  match q.find itName with
  | none => false
  | some vm =>
    match vm.runningQuery, vm.templatesQuery with
    | Except.ok true, Except.ok (t1, t2) =>
        decide (t1 = some shutName ∨ t2 = some shutName) && vm.volumes.any id
    | _, _ => false

/-- A scan step that does not raise `QubesVMNotFoundError` flags the item
exactly under the claim-level condition. -/
theorem scanStep_spec (q : Qapp) (sn : String) (it : Item)
    (h : scanStep q sn it ≠ none) :
    scanStep q sn it
      = some (if scanFlagged q sn it.name then { it with outdated := true }
              else it) := by
  unfold scanStep at h ⊢
  unfold scanFlagged
  cases hq : q.find it.name with
  | none => simp [hq] at h
  | some vm =>
    simp only [hq] at h ⊢
    obtain ⟨nm, kl, pq, ga, tfd, rq, tq, vols, vnf⟩ := vm
    cases rq with
    | error e =>
      cases e with
      | propAccess => simp
      | notFound => simp at h
    | ok b =>
      cases b with
      | false => simp
      | true =>
        simp only at h ⊢
        cases tq with
        | error e => simp at h
        | ok tp =>
          obtain ⟨t1, t2⟩ := tp
          simp only at h ⊢
          by_cases hm : t1 = some sn ∨ t2 = some sn
          · simp only [if_pos hm] at h
            cases vnf with
            | true => simp at h
            | false =>
              by_cases ha : vols.any id = true
              · simp [hm, ha]
              · simp [hm, ha]
          · simp [hm]

/-- C6 amended, part of the conjunction below: with no
`QubesVMNotFoundError` anywhere, the scan flags exactly the matching
domains; but a single not-found failure ends the scan there, leaving the
failing and all following entries untouched (they are not skipped
over). -/
theorem c6_outdated_propagation (q : Qapp) (sn : String) (sv : LiveVM)
    (hq : q.find sn = some sv)
    (hguard : sv.klass = "TemplateVM" ∨ sv.template_for_dispvms = true) :
    (∀ menu : List MenuEntry,
      (∀ it ∈ menuItemsOf menu, scanStep q sn it ≠ none) →
      handleDomainShutdown q menu sn
        = menu.map (fun e =>
            match e with
            | MenuEntry.item it =>
                MenuEntry.item
                  (if scanFlagged q sn it.name then { it with outdated := true }
                   else it)
            | e => e))
    ∧ (∀ (pre post : List MenuEntry) (bad : Item),
        scanStep q sn bad = none →
        handleDomainShutdown q (pre ++ MenuEntry.item bad :: post) sn
          = scanMenu q sn pre ++ MenuEntry.item bad :: post) := by
  have hsn : sv.name = sn := Qapp.find_name hq
  have hunfold : ∀ m : List MenuEntry,
      handleDomainShutdown q m sn = scanMenu q sn m := by
    intro m
    unfold handleDomainShutdown
    simp only [hq]
    rw [hsn, if_pos hguard]
  constructor
  · intro menu hok
    rw [hunfold]
    induction menu with
    | nil => rfl
    | cons e rest ih =>
      cases e with
      | header =>
        have hrest : ∀ it ∈ menuItemsOf rest, scanStep q sn it ≠ none :=
          fun it hit => hok it (by simpa [menuItemsOf] using hit)
        simp [scanMenu, ih hrest]
      | other =>
        have hrest : ∀ it ∈ menuItemsOf rest, scanStep q sn it ≠ none :=
          fun it hit => hok it (by simpa [menuItemsOf] using hit)
        simp [scanMenu, ih hrest]
      | item it =>
        have hrest : ∀ it2 ∈ menuItemsOf rest, scanStep q sn it2 ≠ none :=
          fun it2 hit => hok it2 (by simp [menuItemsOf, hit])
        have hstep := scanStep_spec q sn it
          (hok it (by simp [menuItemsOf]))
        simp [scanMenu, hstep, ih hrest]
  · intro pre post bad hbad
    rw [hunfold]
    induction pre with
    | nil => simp [scanMenu, hbad]
    | cons e rest ih =>
      cases e with
      | header => simpa [scanMenu] using ih
      | other => simpa [scanMenu] using ih
      | item it =>
        cases hstep : scanStep q sn it with
        | none => simp [scanMenu, hstep]
        | some it2 => simpa [scanMenu, hstep] using ih

/-- The shut-down template of the C6 scenarios. -/
def exTemplate : LiveVM :=
  ⟨"tpl", "TemplateVM", none, false, false, Except.ok false,
   Except.ok (none, none), [], false⟩

/-- A running app domain based on `tpl` with an out-of-date volume. -/
def exApp : LiveVM :=
  ⟨"app", "AppVM", none, false, false, Except.ok true,
   Except.ok (some "tpl", none), [true], false⟩

/-- C6 counterexample: the menu holds `gone` (no longer resolvable — it
is absent from the live collection, so its `is_running()` raises
`QubesVMNotFoundError`) followed by `app`, which is running, based on the
shut-down template `tpl`, and has an out-of-date volume.  The claim says
`gone` is skipped and `app` gets its outdated indicator set; in fact the
scan stops at `gone` and the menu is returned entirely unchanged, `app`'s
indicator still clear. -/
theorem c6_outdated_propagation_counterexample :
    handleDomainShutdown ⟨[exTemplate, exApp]⟩
        [MenuEntry.item ⟨"gone", "AppVM", "Running", true, false⟩,
         MenuEntry.item ⟨"app", "AppVM", "Running", true, false⟩] "tpl"
      = [MenuEntry.item ⟨"gone", "AppVM", "Running", true, false⟩,
         MenuEntry.item ⟨"app", "AppVM", "Running", true, false⟩]
    ∧ (Qapp.find ⟨[exTemplate, exApp]⟩ "tpl").map LiveVM.klass
        = some "TemplateVM"
    ∧ Qapp.find ⟨[exTemplate, exApp]⟩ "gone" = none
    ∧ exApp.runningQuery = Except.ok true
    ∧ exApp.templatesQuery = Except.ok (some "tpl", none)
    ∧ exApp.volumes.any id = true
    ∧ findItem (handleDomainShutdown ⟨[exTemplate, exApp]⟩
          [MenuEntry.item ⟨"gone", "AppVM", "Running", true, false⟩,
           MenuEntry.item ⟨"app", "AppVM", "Running", true, false⟩] "tpl")
        "app"
      = some ⟨"app", "AppVM", "Running", true, false⟩ := by
  refine ⟨by decide, by decide, by decide, by decide, by decide, by decide,
    by decide⟩

/-- Witness for C6's amended theorem at a concrete input: with every
domain of the menu resolvable, the scan flags exactly `app` (running,
based on the shut-down `tpl`, out-of-date volume) and leaves the
non-running `oth` untouched; and with the unresolvable `gone` first in
the menu, the scan stops there. -/
theorem c6_outdated_propagation_witness :
    handleDomainShutdown
        ⟨[exTemplate, exApp,
          ⟨"oth", "AppVM", none, false, false, Except.ok false,
           Except.ok (some "tpl", none), [true], false⟩]⟩
        [MenuEntry.item ⟨"app", "AppVM", "Running", true, false⟩,
         MenuEntry.item ⟨"oth", "AppVM", "Running", true, false⟩] "tpl"
      = [MenuEntry.item ⟨"app", "AppVM", "Running", true, true⟩,
         MenuEntry.item ⟨"oth", "AppVM", "Running", true, false⟩]
    ∧ handleDomainShutdown ⟨[exTemplate, exApp]⟩
        [MenuEntry.item ⟨"gone", "AppVM", "Running", true, false⟩,
         MenuEntry.item ⟨"app", "AppVM", "Running", true, false⟩] "tpl"
      = scanMenu ⟨[exTemplate, exApp]⟩ "tpl" []
          ++ MenuEntry.item ⟨"gone", "AppVM", "Running", true, false⟩
             :: [MenuEntry.item ⟨"app", "AppVM", "Running", true, false⟩] := by
  constructor
  · rw [(c6_outdated_propagation
      ⟨[exTemplate, exApp,
        ⟨"oth", "AppVM", none, false, false, Except.ok false,
         Except.ok (some "tpl", none), [true], false⟩]⟩
      "tpl" exTemplate (by decide) (by decide)).1 _ (by decide)]
    decide
  · exact (c6_outdated_propagation ⟨[exTemplate, exApp]⟩ "tpl" exTemplate
      (by decide) (by decide)).2 []
      [MenuEntry.item ⟨"app", "AppVM", "Running", true, false⟩]
      ⟨"gone", "AppVM", "Running", true, false⟩ (by decide)

/-! ### C5 — out-of-order update before add -/

/-- C5: a lifecycle update event for an identity not yet tracked first
creates the entry and then applies the update, and the resulting menu
equals processing a `domain-add` event followed by the same update event
in order; moreover, when the entry is still absent after the creation
attempt, the handler returns the menu unchanged. -/
theorem c5_out_of_order_update (q : Qapp) (menu : List MenuEntry)
    (n E : String) (hE : E ≠ "") (habs : findItem menu n = none) :
    updateDomainItem q menu n E
      = updateDomainItem q (addDomainItem q menu (some "domain-add") n) n E
    ∧ (findItem (addDomainItem q menu (some E) n) n = none →
        updateDomainItem q menu n E = menu) := by
  have hda_none : STATE_DICTIONARY "domain-add" = none := by decide
  have hda_ne : ("domain-add" : String) ≠ "" := by decide
  cases hq : q.find n with
  | none =>
    have hadd1 : addDomainItem q menu (some "domain-add") n = menu := by
      simp [addDomainItem, hq]
    have hadd2 : addDomainItem q menu (some E) n = menu := by
      simp [addDomainItem, hq]
    refine ⟨by rw [hadd1], fun _ => ?_⟩
    rw [updateDomainItem_absent q menu n E habs, hadd2, habs]
    simp
  | some vm =>
    have hn : vm.name = n := Qapp.find_name hq
    have habs' : findItem menu vm.name = none := by rw [hn]; exact habs
    cases hd : STATE_DICTIONARY E with
    | some s =>
      have hresE : resolveAddState (some E) vm = some s := by
        simp [resolveAddState, hd]
      have haddE : addDomainItem q menu (some E) n
          = insertAt (MenuEntry.item (mkItem vm s)) (insertPosition n menu)
              menu :=
        addDomainItem_creates q menu E n vm s hq habs hE hresE
      have hfoundE : findItem
          (insertAt (MenuEntry.item (mkItem vm s)) (insertPosition n menu)
            menu) n = some (mkItem vm s) := by
        have h0 := findItem_insertAt menu (mkItem vm s) (insertPosition n menu)
          (by rw [mkItem_name]; exact habs')
        rwa [mkItem_name, hn] at h0
      have hres_st : resolveState q n E = s := by simp [resolveState, hd]
      have hmod : ∀ st0 : String,
          modifyItem (fun it => it.updateState s) n
              (insertAt (MenuEntry.item (mkItem vm st0))
                (insertPosition n menu) menu)
            = insertAt (MenuEntry.item (mkItem vm s)) (insertPosition n menu)
                menu := by
        intro st0
        have h0 := modifyItem_insertAt (fun it => it.updateState s) menu
          (mkItem vm st0) (insertPosition n menu)
          (by rw [mkItem_name]; exact habs')
        rw [mkItem_name, hn] at h0
        rw [h0]
        simp only [mkItem_updateState]
      have hLHS : updateDomainItem q menu n E
          = postStateEffects q n E
              (insertAt (MenuEntry.item (mkItem vm s)) (insertPosition n menu)
                menu) := by
        rw [updateDomainItem_absent q menu n E habs, haddE, hfoundE, hres_st]
        simp [hmod s]
      constructor
      · cases hpq : vm.powerQuery with
        | some ps =>
          have hresD : resolveAddState (some "domain-add") vm = some ps := by
            simp [resolveAddState, hda_none, hpq]
          have haddD : addDomainItem q menu (some "domain-add") n
              = insertAt (MenuEntry.item (mkItem vm ps))
                  (insertPosition n menu) menu :=
            addDomainItem_creates q menu "domain-add" n vm ps hq habs hda_ne
              hresD
          have hfoundD : findItem
              (insertAt (MenuEntry.item (mkItem vm ps))
                (insertPosition n menu) menu) n = some (mkItem vm ps) := by
            have h0 := findItem_insertAt menu (mkItem vm ps)
              (insertPosition n menu) (by rw [mkItem_name]; exact habs')
            rwa [mkItem_name, hn] at h0
          rw [hLHS, haddD,
            updateDomainItem_present q _ n E (by rw [hfoundD]; rfl), hres_st,
            hmod ps]
        | none =>
          cases hg : vm.goneAtRecheck with
          | true =>
            have hresD : resolveAddState (some "domain-add") vm = none := by
              simp [resolveAddState, hda_none, hpq, hg]
            rw [addDomainItem_aborts q menu (some "domain-add") n vm hq habs
              hresD]
          | false =>
            have hresD : resolveAddState (some "domain-add") vm
                = some "Halted" := by
              simp [resolveAddState, hda_none, hpq, hg]
            have haddD : addDomainItem q menu (some "domain-add") n
                = insertAt (MenuEntry.item (mkItem vm "Halted"))
                    (insertPosition n menu) menu :=
              addDomainItem_creates q menu "domain-add" n vm "Halted" hq habs
                hda_ne hresD
            have hfoundD : findItem
                (insertAt (MenuEntry.item (mkItem vm "Halted"))
                  (insertPosition n menu) menu) n
                = some (mkItem vm "Halted") := by
              have h0 := findItem_insertAt menu (mkItem vm "Halted")
                (insertPosition n menu) (by rw [mkItem_name]; exact habs')
              rwa [mkItem_name, hn] at h0
            rw [hLHS, haddD,
              updateDomainItem_present q _ n E (by rw [hfoundD]; rfl),
              hres_st, hmod "Halted"]
      · intro hnone
        rw [haddE, hfoundE] at hnone
        simp at hnone
    | none =>
      have hEq : addDomainItem q menu (some E) n
          = addDomainItem q menu (some "domain-add") n :=
        addDomainItem_unknown_eq q menu E "domain-add" n hd hda_none hE hda_ne
      constructor
      · rcases addDomainItem_id_or_found q menu (some "domain-add") n with
          hid | hfound
        · rw [hid]
        · rw [updateDomainItem_absent q menu n E habs, hEq]
          cases hfi : findItem (addDomainItem q menu (some "domain-add") n) n
            with
          | none => rw [hfi] at hfound; simp at hfound
          | some it =>
            rw [updateDomainItem_present q _ n E (by rw [hfi]; rfl)]
            simp [hfi]
      · intro hnone
        rw [hEq] at hnone
        rcases addDomainItem_id_or_found q menu (some "domain-add") n with
          hid | hfound
        · rw [updateDomainItem_absent q menu n E habs, hEq, hid, habs]
          simp
        · rw [hnone] at hfound
          simp at hfound

/-- Witness for C5 at a concrete input: a `domain-paused` event for the
untracked `work` creates the entry and yields exactly the menu of a
`domain-add` followed by the same `domain-paused`; and for a vanished
`dispvm` the handler leaves the menu unchanged. -/
theorem c5_out_of_order_update_witness :
    ("domain-paused" : String) ≠ ""
    ∧ findItem [MenuEntry.header] "work" = none
    ∧ updateDomainItem
        ⟨[⟨"work", "AppVM", some "Running", false, false, Except.ok true,
           Except.ok (none, none), [], false⟩]⟩
        [MenuEntry.header] "work" "domain-paused"
      = updateDomainItem
          ⟨[⟨"work", "AppVM", some "Running", false, false, Except.ok true,
             Except.ok (none, none), [], false⟩]⟩
          (addDomainItem
            ⟨[⟨"work", "AppVM", some "Running", false, false, Except.ok true,
               Except.ok (none, none), [], false⟩]⟩
            [MenuEntry.header] (some "domain-add") "work")
          "work" "domain-paused"
    ∧ updateDomainItem
        ⟨[⟨"dispvm", "DispVM", none, true, false, Except.ok true,
           Except.ok (none, none), [], false⟩]⟩
        [MenuEntry.header] "dispvm" "domain-feature-set:internal"
      = [MenuEntry.header] := by
  refine ⟨by decide, by decide, ?_, ?_⟩
  · exact (c5_out_of_order_update _ _ _ _ (by decide) (by decide)).1
  · exact (c5_out_of_order_update
      ⟨[⟨"dispvm", "DispVM", none, true, false, Except.ok true,
         Except.ok (none, none), [], false⟩]⟩
      [MenuEntry.header] "dispvm" "domain-feature-set:internal"
      (by decide) (by decide)).2 (by decide)

/-! ### C1 — unknown event kinds and the failing direct query -/

/-- C1 counterexample: the domain `work` has vanished entirely (the live
collection is empty, so its direct power-state query fails with
non-existence), an event of unknown kind arrives, and yet the update
handler does not remove the entry: it updates it in place to the
`Transient` fallback. -/
theorem c1_unknown_kind_counterexample :
    updateDomainItem ⟨[]⟩
        [MenuEntry.header,
         MenuEntry.item ⟨"work", "AppVM", "Running", true, false⟩,
         MenuEntry.other]
        "work" "domain-feature-set:internal"
      = [MenuEntry.header,
         MenuEntry.item ⟨"work", "AppVM", "Transient", true, false⟩,
         MenuEntry.other]
    ∧ findItem
        (updateDomainItem ⟨[]⟩
          [MenuEntry.header,
           MenuEntry.item ⟨"work", "AppVM", "Running", true, false⟩,
           MenuEntry.other]
          "work" "domain-feature-set:internal")
        "work"
      ≠ none := by
  refine ⟨by decide, by decide⟩

theorem state_dict_none_ne {E : String} (hE : STATE_DICTIONARY E = none) :
    E ≠ "domain-shutdown" ∧ E ≠ "domain-start" ∧ E ≠ "domain-pre-start" := by
  refine ⟨?_, ?_, ?_⟩ <;> rintro rfl <;> exact absurd hE (by decide)

theorem postStateEffects_noop (q : Qapp) (n E : String) (m : List MenuEntry)
    (h1 : E ≠ "domain-shutdown") (h2 : E ≠ "domain-start")
    (h3 : E ≠ "domain-pre-start") :
    postStateEffects q n E m = m := by
  simp [postStateEffects, h1, h2, h3]

/-- C1 amended: for an event kind outside the table, the update handler
queries the power state and, on any failure whatsoever — the domain no
longer existing included — resolves to `Transient` and updates an
existing entry in place; it never removes it.  Only when the entry is
absent (the update-before-add path) does a failing query with the domain
gone at the re-check end with no entry; with the domain still present the
entry is created with the `Halted` fallback and then updated to
`Transient`. -/
theorem c1_unknown_kind_fallback (q : Qapp) (menu : List MenuEntry)
    (n E : String) (hE : STATE_DICTIONARY E = none) :
    ((findItem menu n).isSome = true →
      (q.find n = none ∨ ∃ vm, q.find n = some vm ∧ vm.powerQuery = none) →
      updateDomainItem q menu n E
        = modifyItem (fun it => it.updateState "Transient") n menu)
    ∧ (findItem menu n = none → ∀ vm, q.find n = some vm →
        vm.powerQuery = none →
        ((vm.goneAtRecheck = true → updateDomainItem q menu n E = menu)
         ∧ (vm.goneAtRecheck = false → E ≠ "" →
             updateDomainItem q menu n E
               = modifyItem (fun it => it.updateState "Transient") n
                   (insertAt (MenuEntry.item (mkItem vm "Halted"))
                     (insertPosition n menu) menu)))) := by
  obtain ⟨hne1, hne2, hne3⟩ := state_dict_none_ne hE
  constructor
  · intro hp hq
    have hst : resolveState q n E = "Transient" := by
      rcases hq with hq | ⟨vm, hq, hpq⟩
      · simp [resolveState, hE, hq]
      · simp [resolveState, hE, hq, hpq]
    simp [updateDomainItem, hp, hst, postStateEffects_noop q n E _ hne1 hne2 hne3]
  · intro habs vm hq hpq
    have hn : vm.name = n := Qapp.find_name hq
    constructor
    · intro hgone
      have hadd : addDomainItem q menu (some E) n = menu := by
        simp [addDomainItem, resolveAddState, hq, hn, habs, hE, hpq, hgone]
      simp [updateDomainItem, habs, hadd]
    · intro hgone hEne
      have hadd : addDomainItem q menu (some E) n
          = insertAt (MenuEntry.item (mkItem vm "Halted"))
              (insertPosition n menu) menu := by
        simp [addDomainItem, resolveAddState, hq, hn, habs, hE, hpq, hgone, hEne]
      have hname : (mkItem vm "Halted").name = n := by
        simp [mkItem]
        split <;> simp [hn]
      have hfound : findItem
          (insertAt (MenuEntry.item (mkItem vm "Halted"))
            (insertPosition n menu) menu) n = some (mkItem vm "Halted") := by
        have := findItem_insertAt menu (mkItem vm "Halted")
          (insertPosition n menu) (by rw [hname]; exact habs)
        rwa [hname] at this
      have hst : resolveState q n E = "Transient" := by
        simp [resolveState, hE, hq, hpq]
      simp [updateDomainItem, habs, hadd, hfound, hst,
        postStateEffects_noop q n E _ hne1 hne2 hne3]

/-- Witness for C1's amended theorem at concrete inputs: an unknown event
kind for the existing entry `work` whose live query fails resolves it in
place to `Transient`; for the absent entry `dispvm` whose query fails
with the domain gone, no entry is created. -/
theorem c1_unknown_kind_fallback_witness :
    STATE_DICTIONARY "domain-feature-set:internal" = none
    ∧ (findItem [MenuEntry.item ⟨"work", "AppVM", "Running", true, false⟩]
        "work").isSome = true
    ∧ updateDomainItem
        ⟨[⟨"work", "AppVM", none, false, false, Except.ok true,
           Except.ok (none, none), [], false⟩]⟩
        [MenuEntry.item ⟨"work", "AppVM", "Running", true, false⟩]
        "work" "domain-feature-set:internal"
      = [MenuEntry.item ⟨"work", "AppVM", "Transient", true, false⟩]
    ∧ updateDomainItem
        ⟨[⟨"dispvm", "DispVM", none, true, false, Except.ok true,
           Except.ok (none, none), [], false⟩]⟩
        [] "dispvm" "domain-feature-set:internal"
      = [] := by
  refine ⟨by decide, by decide, ?_, ?_⟩
  · have h := (c1_unknown_kind_fallback
      ⟨[⟨"work", "AppVM", none, false, false, Except.ok true,
         Except.ok (none, none), [], false⟩]⟩
      [MenuEntry.item ⟨"work", "AppVM", "Running", true, false⟩]
      "work" "domain-feature-set:internal" (by decide)).1
      (by decide)
      (Or.inr ⟨_, rfl, rfl⟩)
    rw [h]; decide
  · exact (c1_unknown_kind_fallback
      ⟨[⟨"dispvm", "DispVM", none, true, false, Except.ok true,
         Except.ok (none, none), [], false⟩]⟩
      [] "dispvm" "domain-feature-set:internal" (by decide)).2
      (by decide) _ rfl rfl |>.1 rfl

end QuiDomains
